import Mathlib

/-!
Shallow embedding of `controllers/node.go` from the netmaker repository,
together with theorems settling the specification claims about its
authorization gate, node lifecycle handlers, relay address repair and
propagation entry points.  External collaborators (`logic`, `mq`,
`servercfg`, storage) are modelled as explicit inputs to the embedded
handlers; fallible collaborator calls become `Option`/`Bool` inputs.
-/

set_option autoImplicit false

namespace NM

/-- Record of a node as used by the handlers in `controllers/node.go`.
Traffic keys are modelled as `Option` values (`none` corresponds to a nil
key in Go); the string-typed role flags (`"yes"`/`"no"`) are kept as in the
source. -/
structure Node where
  id : String
  name : String
  network : String
  address : String
  address6 : String
  isServer : String
  isPending : String
  isRelay : String
  isRelayed : String
  relayAddrs : List String
  postUp : String
  postDown : String
  accessKey : String
  action : String
  trafficKeyMine : Option String
  trafficKeyServer : Option String
deriving DecidableEq, Repr

/-- Predicate `isServer` from `controllers/node.go`: a node is a server
node when its `IsServer` flag holds the string `"yes"`. -/
def isServer (node : Node) : Bool :=
  node.isServer = "yes"

/-! ### Relay address repair (`updateRelay`)

The Go loop

```
for i, ip := range newrelay.RelayAddrs {
    if ip == oldnode.Address {
        newrelay.RelayAddrs = append(newrelay.RelayAddrs[:i], relay.RelayAddrs[i+1:]...)
        newrelay.RelayAddrs = append(newrelay.RelayAddrs, newnode.Address)
    }
}
```

captures the slice header once, so it performs exactly `length` iterations
and reads the current (in-place mutated) backing array at index `i`.
Both appends stay within the original capacity, so a match at `i` removes
the entry at `i` in place and appends the replacement address at the end,
keeping the list length constant across iterations.  `relay` and
`newrelay` alias the same record (`newrelay := relay` copies a pointer),
so every read sees the mutated list. -/

/-- One iteration sequence of the Go splice loop: `fuel` remaining
iterations, `i` the current index, `L` the current list. -/
def spliceGo (oldA newA : String) : Nat → Nat → List String → List String
  | 0, _, L => L
  | fuel+1, i, L =>
    match L.get? i with
    | some a =>
      if a = oldA then spliceGo oldA newA fuel (i+1) (L.eraseIdx i ++ [newA])
      else spliceGo oldA newA fuel (i+1) L
    | none => spliceGo oldA newA fuel (i+1) L

/-- The full splice loop of `updateRelay`: iterate over the indices of the
list as captured at loop entry, replacing entries equal to `oldA` by a
removal plus an append of `newA`. -/
def relaySplice (oldA newA : String) (L : List String) : List String :=
  spliceGo oldA newA L.length 0 L

/-- Address-list repair performed by `updateRelay` in `controllers/node.go`
on the relay node owning a relayed node whose addresses changed.  The first
branch fires when the IPv4 address changed; the second branch fires when
the IPv6 address changed but — exactly as in the source — tests list
entries against `oldAddr`, the previous IPv4 address, while appending
`newAddr6`. -/
def updateRelayAddrs (oldAddr oldAddr6 newAddr newAddr6 : String)
    (L : List String) : List String :=
  let L1 := if oldAddr ≠ newAddr then relaySplice oldAddr newAddr L else L
  if oldAddr6 ≠ newAddr6 then relaySplice oldAddr newAddr6 L1 else L1

/-- The `updateRelay` function of `controllers/node.go`, acting on the
relay record found by `logic.FindRelay` (passed explicitly here). -/
def updateRelay (oldnode newnode relay : Node) : Node :=
  { relay with
    relayAddrs :=
      updateRelayAddrs oldnode.address oldnode.address6
        newnode.address newnode.address6 relay.relayAddrs }

/-! ### Authorization middleware (`authorize`) -/

/-- Claims returned by `logic.VerifyUserToken`: username, list of network
memberships and the admin flag.  A master credential verifies as an admin
identity. -/
structure UserClaims where
  username : String
  networks : List String
  isadmin : Bool
deriving DecidableEq, Repr

/-- Request-scoped environment of the `authorize` middleware.  `hasToken`
models `len(tokenSplit) > 1`; `nodeTokenValid` models
`logic.VerifyToken(authToken)` succeeding; `userClaims` models the result
of `logic.VerifyUserToken`; `nodeLookup` models `logic.GetNodeByID`,
returning the network of the node when the lookup succeeds.  `paramNetid`
models `params["netid"]`: no route pattern registered in `nodeHandlers`
binds a `netid` variable, so gorilla/mux yields the empty string for it on
every request. -/
structure AuthEnv where
  networkExists : Bool
  hasToken : Bool
  nodeTokenValid : Bool
  userClaims : Option UserClaims
  nodeLookup : String → Option String
  paramNetwork : String
  paramNodeid : String
  paramNetid : String

/-- Observable outcome of the `authorize` middleware: a 404 response, a 401
response, or the wrapped handler running with the `ismasterkey` and `user`
headers it sees. -/
inductive AuthResult where
  | notFound
  | unauthorized
  | handlerRun (isMaster : Bool) (username : String)
deriving DecidableEq, Repr

/-- Username fixup applied just before the handler runs (line 283 of the
source): an empty username becomes the sentinel `"(user not found)"`. -/
def fixUsername (u : String) : String :=
  if u = "" then "(user not found)" else u

/-- The `authorize` middleware of `controllers/node.go`, transcribed branch
by branch.  The early-return on a failed `logic.GetNodeByID` lookup in the
`"network"` scope produces the same observable `unauthorized` outcome as
`isAuthorized = false`. -/
def authorize (nodesAllowed networkCheck : Bool) (authNetwork : String)
    (env : AuthEnv) : AuthResult :=
  if networkCheck ∧ ¬env.networkExists then .notFound
  else if ¬env.hasToken then .unauthorized
  else if nodesAllowed ∧ env.nodeTokenValid then .handlerRun false ""
  else
    match env.userClaims with
    | none => .unauthorized
    | some c =>
      let nodeID : String := if c.isadmin then "mastermac" else ""
      let isnetadmin : Bool :=
        c.isadmin ∨
          (¬c.isadmin ∧ env.paramNetwork ≠ "" ∧
            c.networks.contains env.paramNetwork)
      if nodeID = "mastermac" then .handlerRun true (fixUsername c.username)
      else
        let isAuthorized : Option Bool :=
          if authNetwork = "all" then some true
          else if authNetwork = "nodes" then
            some (nodeID ≠ "" ∨ isnetadmin)
          else if authNetwork = "network" then
            if isnetadmin then some true
            else
              match env.nodeLookup nodeID with
              | none => none
              | some nodeNetwork => some (nodeNetwork = env.paramNetwork)
          else if authNetwork = "node" then
            some (isnetadmin ∨ nodeID = env.paramNetid)
          else if authNetwork = "user" then some true
          else some false
        match isAuthorized with
        | none => .unauthorized
        | some false => .unauthorized
        | some true => .handlerRun false (fixUsername c.username)

/-- Truth of an `AuthResult` being a run of the wrapped handler. -/
def AuthResult.isHandlerRun : AuthResult → Bool
  | .handlerRun _ _ => true
  | _ => false

/-! ### Node registration (`createNode`) -/

/-- Collaborator results consumed by the `createNode` handler, in source
order: the `functions.NetworkExists` call (error flag and result), the JSON
decode, `logic.GetNetworkByNode`, `logic.GetNetworkSettings`, the
network's `AllowManualSignUp` field, `logic.IsKeyValid`,
`logic.RetrievePublicTrafficKey` (error flag and possibly-nil key) and
`logic.CreateNode`. -/
structure CreateNodeEnv where
  networkExistsErr : Bool
  networkExists : Bool
  decodeErr : Bool
  getNetworkErr : Bool
  getSettingsErr : Bool
  allowManualSignUp : String
  keyIsValid : Bool
  serverKeyErr : Bool
  serverTrafficKey : Option String
  createErr : Bool
deriving DecidableEq, Repr

/-- Observable outcome of the `createNode` handler.  `created n` means
`logic.CreateNode` persisted `n` and the handler responded 200; every
error constructor responds without persisting any node record. -/
inductive CreateNodeResult where
  | internalErr
  | notFound
  | unauthorized
  | created (n : Node)
deriving DecidableEq, Repr

/-- The `createNode` handler of `controllers/node.go`: network existence
check, access-key validation with the manual-signup fallback that marks
the node pending, the traffic-key presence checks, then persistence. -/
def createNode (env : CreateNodeEnv) (networkName : String)
    (draft : Node) : CreateNodeResult :=
  if env.networkExistsErr then .internalErr
  else if ¬env.networkExists then .notFound
  else if env.decodeErr then .internalErr
  else
    let node : Node := { draft with network := networkName }
    if env.getNetworkErr then .internalErr
    else if env.getSettingsErr then .internalErr
    else
      let afterKey : Option Node :=
        if env.keyIsValid then some node
        else if env.allowManualSignUp = "yes" then
          some { node with isPending := "yes" }
        else none
      match afterKey with
      | none => .unauthorized
      | some node1 =>
        if env.serverKeyErr then .internalErr
        else
          match env.serverTrafficKey with
          | none => .internalErr
          | some serverKey =>
            match node1.trafficKeyMine with
            | none => .internalErr
            | some mineKey =>
              let node2 : Node :=
                { node1 with
                  trafficKeyMine := some mineKey
                  trafficKeyServer := some serverKey }
              if env.createErr then .internalErr
              else .created node2

/-! ### Node deletion (`deleteNode`) -/

/-- Response of the `deleteNode` handler: `badRequest` models
`formatError(err, "badrequest")`, `internalErr` models
`formatError(err, "internal")`, `success` the 200 response. -/
inductive DeleteNodeResponse where
  | badRequest (msg : String)
  | internalErr
  | success
deriving DecidableEq, Repr

/-- Full observable outcome of `deleteNode`: the HTTP response, whether
`logic.DeleteNodeByID` removed the record, and whether the handler set the
`NODE_DELETE` action marker on the node before deletion. -/
structure DeleteOutcome where
  response : DeleteNodeResponse
  removed : Bool
  actionMarked : Bool
deriving DecidableEq, Repr

/-- The `deleteNode` handler of `controllers/node.go`: node lookup, the
`isServer` guard (which returns `"cannot delete server node"` as a
bad-request error before the action marker is set or any deletion runs),
then marking `NODE_DELETE` and deleting. -/
def deleteNode (lookup : Option Node) (deleteErr : Bool) : DeleteOutcome :=
  match lookup with
  | none => ⟨.badRequest "node not found", false, false⟩
  | some node =>
    if isServer node then
      ⟨.badRequest "cannot delete server node", false, false⟩
    else if deleteErr then ⟨.internalErr, false, true⟩
    else ⟨.success, true, true⟩

/-! ### Node update (`updateNode`) -/

/-- Relevant outcome of the `updateNode` handler for the frame claims: the
node record handed to `logic.UpdateNode` for persistence, together with
the deltas the handler computed before applying the patch. -/
structure UpdateOutcome where
  persisted : Node
  relayupdate : Bool
  relayedUpdate : Bool
  ifaceDelta : Bool
deriving Repr

/-- The delta computation and the remote-command-execution gate of the
`updateNode` handler in `controllers/node.go`.  `rce` models
`servercfg.GetRce()`; `ifaceDelta` models the external
`logic.IfaceDelta` computation.  When `rce` is disabled the patch's
`PostDown`/`PostUp` script fields are overwritten with the node's current
values before `logic.UpdateNode` persists the patch. -/
def updateNodeHandler (rce ifaceDelta : Bool) (node newNode : Node) :
    UpdateOutcome :=
  let relayupdate : Bool :=
    if node.isRelay = "yes" ∧ newNode.relayAddrs.length > 0 then
      if newNode.relayAddrs.length ≠ node.relayAddrs.length then true
      else (newNode.relayAddrs.zip node.relayAddrs).any
        (fun p => p.1 ≠ p.2)
    else false
  let relayedUpdate : Bool :=
    node.isRelayed = "yes" ∧
      (node.address ≠ newNode.address ∨ node.address6 ≠ newNode.address6)
  let newNode1 : Node :=
    if ¬rce then
      { newNode with postDown := node.postDown, postUp := node.postUp }
    else newNode
  ⟨newNode1, relayupdate, relayedUpdate, ifaceDelta⟩

/-! ### Propagation (`runForceServerUpdate` and `getUsersNodes`) -/

/-- Message-bus and server-side actions dispatched by the propagation
helpers: `mq.PublishPeerUpdate` for a node, and `logic.ServerUpdate` on a
server record with an interface-delta flag. -/
inductive MqAction where
  | publishPeerUpdate (nodeId : String)
  | serverUpdate (serverId : String) (ifaceDelta : Bool)
deriving DecidableEq, Repr

/-- The `runForceServerUpdate` entry point of `controllers/node.go`: it
always publishes a peer update for the given node, then looks up the
network's current leader via `logic.GetNetworkServerLeader` and, when the
lookup succeeds, pushes `logic.ServerUpdate` on the leader with a `false`
delta flag.  It takes no interface-delta input and performs no leadership
check on `node` itself. -/
def runForceServerUpdate (leaderLookup : String → Option Node)
    (node : Node) : List MqAction :=
  [.publishPeerUpdate node.id] ++
    (match leaderLookup node.network with
     | some leader => [.serverUpdate leader.id false]
     | none => [])

/-- The `runServerUpdate` helper (non-forced variant), for contrast: it
publishes the broader peer update only when the interface delta is set and
the local server record is the network leader. -/
def runServerUpdate (clientMode : String) (isLeader : Node → Bool)
    (serverLookup : String → Option Node) (node : Node)
    (ifaceDelta : Bool) : List MqAction :=
  if clientMode ≠ "on" ∨ ¬isServer node then []
  else
    match serverLookup node.network with
    | none => []
    | some currentServerNode =>
      (if ifaceDelta ∧ isLeader currentServerNode then
        [.publishPeerUpdate currentServerNode.id]
       else []) ++ [.serverUpdate currentServerNode.id ifaceDelta]

/-- A user record as consumed by `getAllNodes`: `logic.GetUser` yields the
name, admin flag and network memberships (the Go zero value is used when
the lookup fails but the master-key header is present). -/
structure User where
  name : String
  isAdmin : Bool
  networks : List String
deriving DecidableEq, Repr

/-- The `getUsersNodes` helper of `controllers/node.go`.  `fetch` models
`logic.GetNetworkNodes` (`none` = error).  The Go function declares
`var err error` (nil) and the loop shadows it with `:=`, so the returned
error is always nil and failing networks are silently skipped while the
successful ones are concatenated in order. -/
def getUsersNodes (fetch : String → Option (List Node)) (user : User) :
    List Node × Option String :=
  (user.networks.foldl
    (fun nodes networkName =>
      match fetch networkName with
      | none => nodes
      | some tmpNodes => nodes ++ tmpNodes) [],
   none)

/-- The `getAllNodes` handler: admin or master-key requests read the full
node table (`allNodesRes`, `none` = storage error surfaced to the caller);
every other user goes through `getUsersNodes`, whose error result decides
whether an error response is produced.  The handler's response is `none`
for an error response and `some nodes` for a 200. -/
def getAllNodes (userLookup : Option User) (isMasterKey : Bool)
    (allNodesRes : Option (List Node))
    (fetch : String → Option (List Node)) : Option (List Node) :=
  if userLookup = none ∧ ¬isMasterKey then none
  else
    let user : User := userLookup.getD ⟨"", false, []⟩
    if user.isAdmin ∨ isMasterKey then allNodesRes
    else
      let res := getUsersNodes fetch user
      match res.2 with
      | some _ => none
      | none => some res.1

/-! ## Lemmas about the splice loop -/

/-- Shifting the splice loop across a non-examined head element. -/
theorem spliceGo_cons (oldA newA a : String) (fuel : Nat) :
    ∀ (i : Nat) (L : List String),
      spliceGo oldA newA fuel (i+1) (a :: L) =
        a :: spliceGo oldA newA fuel i L := by
  induction fuel with
  | zero => intro i L; rfl
  | succ fuel ih =>
    intro i L
    simp only [spliceGo, List.get?_cons_succ]
    cases hL : L.get? i with
    | none => exact ih (i+1) L
    | some b =>
      by_cases hb : b = oldA
      · simp only [hb, if_pos rfl, List.eraseIdx_cons_succ, List.cons_append]
        exact ih (i+1) (L.eraseIdx i ++ [newA])
      · simp only [if_neg hb]
        exact ih (i+1) L

/-- The splice loop leaves a list unchanged when every match it could find
from position `i` on would splice back the very same list. -/
theorem spliceGo_stable (oldA newA : String) (fuel : Nat) :
    ∀ (i : Nat) (L : List String),
      (∀ (j : Nat) (a : String), i ≤ j → L.get? j = some a → a = oldA →
        L.eraseIdx j ++ [newA] = L) →
      spliceGo oldA newA fuel i L = L := by
  induction fuel with
  | zero => intro i L _; rfl
  | succ fuel ih =>
    intro i L h
    simp only [spliceGo]
    cases hL : L.get? i with
    | none =>
      exact ih (i+1) L (fun j a hj hg ha => h j a (Nat.le_of_succ_le hj) hg ha)
    | some b =>
      by_cases hb : b = oldA
      · simp only [hb, if_pos rfl]
        rw [h i oldA (Nat.le_refl i) (hb ▸ hL) rfl]
        exact ih (i+1) L
          (fun j a hj hg ha => h j a (Nat.le_of_succ_le hj) hg ha)
      · simp only [if_neg hb]
        exact ih (i+1) L
          (fun j a hj hg ha => h j a (Nat.le_of_succ_le hj) hg ha)

/-- Erasing the final entry of a concatenation with a singleton. -/
theorem eraseIdx_concat (x : String) :
    ∀ (B : List String), (B ++ [x]).eraseIdx B.length = B := by
  intro B
  induction B with
  | nil => rfl
  | cons b B ih =>
    simp only [List.cons_append, List.length_cons, List.eraseIdx_cons_succ, ih]

/-- A splice whose key is absent from the list is the identity. -/
theorem relaySplice_not_mem (oldA newA : String) (L : List String)
    (h : oldA ∉ L) : relaySplice oldA newA L = L := by
  unfold relaySplice
  apply spliceGo_stable
  intro j a _ hg ha
  exact absurd (ha ▸ List.get?_mem hg) h

/-- A splice on a list holding its key exactly once removes that entry and
appends the replacement (this also covers the degenerate replacement
`newA = oldA`, where the appended entry is matched again at the final
iteration and spliced back in place). -/
theorem relaySplice_single (oldA newA : String) :
    ∀ (A B : List String), oldA ∉ A → oldA ∉ B →
      relaySplice oldA newA (A ++ oldA :: B) = (A ++ B) ++ [newA] := by
  intro A
  induction A with
  | nil =>
    intro B _ hB
    unfold relaySplice
    simp only [List.nil_append, List.length_cons]
    simp only [spliceGo, List.get?_cons_zero, if_pos rfl,
      List.eraseIdx_cons_zero]
    apply spliceGo_stable
    intro j a hj hg ha
    rcases Nat.lt_or_ge j B.length with hlt | hge
    · rw [List.get?_append hlt] at hg
      exact absurd (ha ▸ List.get?_mem hg) hB
    · rw [List.get?_append_right hge] at hg
      cases hk : j - B.length with
      | zero =>
        have hj' : j = B.length := Nat.le_antisymm
          (Nat.le_of_sub_eq_zero hk) hge
        rw [hj', eraseIdx_concat]
      | succ k =>
        rw [hk, List.get?_cons_succ, List.get?_nil] at hg
        exact Option.noConfusion hg
  | cons a' A ih =>
    intro B hA hB
    have ha' : ¬(a' = oldA) := fun h => hA (h ▸ List.mem_cons_self a' A)
    have hA' : oldA ∉ A := fun h => hA (List.mem_cons_of_mem _ h)
    unfold relaySplice
    simp only [List.cons_append, List.length_cons]
    simp only [spliceGo, List.get?_cons_zero, if_neg ha']
    rw [spliceGo_cons]
    rw [show spliceGo oldA newA (A ++ oldA :: B).length 0 (A ++ oldA :: B) =
      relaySplice oldA newA (A ++ oldA :: B) from rfl]
    rw [ih B hA' hB]

/-- A full `updateRelay` address repair whose IPv4 key is absent from the
list is the identity (both branches key on the previous IPv4 address). -/
theorem updateRelayAddrs_key_not_mem (o4 o6 n4 n6 : String)
    (L : List String) (h : o4 ∉ L) :
    updateRelayAddrs o4 o6 n4 n6 L = L := by
  unfold updateRelayAddrs
  split_ifs <;>
    simp [relaySplice_not_mem o4 n4 L h, relaySplice_not_mem o4 n6 L h]

/-- Decomposition of a duplicate-free list around one of its members. -/
theorem mem_nodup_decomp {o4 : String} {L : List String} (hm : o4 ∈ L)
    (hnd : L.Nodup) : ∃ A B, L = A ++ o4 :: B ∧ o4 ∉ A ∧ o4 ∉ B := by
  obtain ⟨A, B, rfl⟩ := List.append_of_mem hm
  rw [List.nodup_append] at hnd
  obtain ⟨-, hcons, hdisj⟩ := hnd
  rw [List.nodup_cons] at hcons
  exact ⟨A, B, rfl, fun hA => hdisj hA (List.mem_cons_self _ _), hcons.1⟩

/-- On duplicate-free lists the `updateRelay` address repair is idempotent:
a second application of the same address transition changes nothing. -/
theorem updateRelayAddrs_idem_of_nodup (o4 o6 n4 n6 : String)
    (L : List String) (hnd : L.Nodup) :
    updateRelayAddrs o4 o6 n4 n6 (updateRelayAddrs o4 o6 n4 n6 L) =
      updateRelayAddrs o4 o6 n4 n6 L := by
  by_cases hm : o4 ∈ L
  · obtain ⟨A, B, rfl, hA, hB⟩ := mem_nodup_decomp hm hnd
    have hAB : o4 ∉ A ++ B := fun h => (List.mem_append.mp h).elim hA hB
    by_cases h4 : o4 = n4
    · by_cases h6 : o6 = n6
      · have hid : ∀ X : List String, updateRelayAddrs o4 o6 n4 n6 X = X :=
          fun X => by simp [updateRelayAddrs, h4, h6]
        rw [hid, hid]
      · have e0 : ∀ X : List String,
            updateRelayAddrs o4 o6 n4 n6 X = relaySplice o4 n6 X :=
          fun X => by simp [updateRelayAddrs, h4, h6]
        have e1 : updateRelayAddrs o4 o6 n4 n6 (A ++ o4 :: B) =
            (A ++ B) ++ [n6] := by
          rw [e0]; exact relaySplice_single o4 n6 A B hA hB
        by_cases hn6 : n6 = o4
        · rw [e1, e0, hn6]
          have h2 := relaySplice_single o4 o4 (A ++ B) []
            hAB (List.not_mem_nil o4)
          simpa using h2
        · have hnotin : o4 ∉ (A ++ B) ++ [n6] := by
            intro h
            rcases List.mem_append.mp h with h' | h'
            · exact hAB h'
            · exact hn6 ((List.mem_singleton.mp h').symm)
          rw [e1, e0, relaySplice_not_mem o4 n6 _ hnotin]
    · have hsplit : relaySplice o4 n4 (A ++ o4 :: B) = (A ++ B) ++ [n4] :=
        relaySplice_single o4 n4 A B hA hB
      have hnotin : o4 ∉ (A ++ B) ++ [n4] := by
        intro h
        rcases List.mem_append.mp h with h' | h'
        · exact hAB h'
        · exact h4 (List.mem_singleton.mp h')
      have e1 : updateRelayAddrs o4 o6 n4 n6 (A ++ o4 :: B) =
          (A ++ B) ++ [n4] := by
        unfold updateRelayAddrs
        rw [if_pos h4, hsplit]
        split_ifs with h6
        · exact relaySplice_not_mem o4 n6 _ hnotin
        · rfl
      rw [e1, updateRelayAddrs_key_not_mem o4 o6 n4 n6 _ hnotin]
  · rw [updateRelayAddrs_key_not_mem o4 o6 n4 n6 L hm,
      updateRelayAddrs_key_not_mem o4 o6 n4 n6 L hm]

/-! ## Sample data for witness instantiations -/

/-- A relayed sample node on network `net1`. -/
def nodeX : Node :=
  ⟨"idX", "X", "net1", "10.0.0.2", "fd00::2", "no", "no", "no", "yes",
    [], "", "", "key1", "", some "mkX", none⟩

/-- The sample node after an IPv4 address change. -/
def nodeXNew : Node :=
  { nodeX with address := "10.0.0.9" }

/-- A relay sample node fronting `nodeX` and one more address. -/
def relayR : Node :=
  ⟨"idR", "R", "net1", "10.0.0.1", "fd00::1", "no", "no", "yes", "no",
    ["10.0.0.2", "10.0.0.3"], "", "", "keyR", "", some "mkR", none⟩

/-- A server sample node. -/
def serverNode : Node :=
  { nodeX with id := "idS", name := "S", isServer := "yes" }

/-- A sample update patch carrying script fields. -/
def patchNode : Node :=
  { relayR with postUp := "echo up", postDown := "echo down" }

/-- A sample non-admin user. -/
def userAlice : User :=
  ⟨"alice", false, ["n1", "n2"]⟩

/-- A per-network node fetcher that succeeds on `n1` and fails elsewhere. -/
def fetchOnlyN1 : String → Option (List Node) :=
  fun s => if s = "n1" then some [nodeX] else none

/-! ## Claim theorems -/

/-- C1: for every protected route (any `nodesAllowed`, any `networkCheck`,
any declared scope) a request carrying a valid master credential — token
present, user-token verification yielding admin claims — runs the wrapped
handler; except that when the route sets the network-existence check and
the path network does not exist, the middleware rejects with not-found
before any credential handling. -/
theorem C1_authorize_master (nodesAllowed networkCheck : Bool)
    (scope : String) (env : AuthEnv) (c : UserClaims)
    (htok : env.hasToken = true)
    (hclaims : env.userClaims = some c)
    (hadmin : c.isadmin = true) :
    (networkCheck = true ∧ env.networkExists = false →
      authorize nodesAllowed networkCheck scope env = .notFound) ∧
    ((networkCheck = true → env.networkExists = true) →
      (authorize nodesAllowed networkCheck scope env).isHandlerRun = true) := by
  constructor
  · rintro ⟨h1, h2⟩
    simp [authorize, h1, h2]
  · intro hno
    have hne : ¬((networkCheck = true) ∧ ¬(env.networkExists = true)) := by
      rintro ⟨h1, h2⟩
      exact h2 (hno h1)
    unfold authorize
    rw [if_neg hne, if_neg (by simp [htok])]
    by_cases hnode : (nodesAllowed = true) ∧ (env.nodeTokenValid = true)
    · rw [if_pos hnode]; rfl
    · rw [if_neg hnode, hclaims]
      simp [hadmin, AuthResult.isHandlerRun]

/-- Witness for C1 at a concrete admin-credential request. -/
theorem C1_authorize_master_witness :
    (authorize false true "node"
        ⟨true, true, false, some ⟨"admin", [], true⟩, fun _ => none,
          "net1", "node1", ""⟩).isHandlerRun = true :=
  (C1_authorize_master false true "node" _ ⟨"admin", [], true⟩ rfl rfl
    rfl).2 (fun _ => rfl)

/-- C2 (code bug): on a route declaring the `node` scope, the middleware
authorizes a non-admin user who presents no node identity at all and whose
network list does not contain the path network.  The source compares
`nodeID` (always `""` for a non-admin user identity) with
`params["netid"]`, a path variable no route in `nodeHandlers` binds (the
routes bind `{nodeid}`), so the comparison is `"" == ""` and succeeds for
every authenticated non-admin caller — where the claim and the route
naming intend a comparison with the path node ID. -/
theorem C2_node_scope_authorizes_any_user :
    authorize false true "node"
        ⟨true, true, false, some ⟨"alice", ["othernet"], false⟩,
          fun _ => none, "net1", "node1", ""⟩ =
      .handlerRun false "alice" := by
  rfl

/-- C3 (code bug): evaluation of the `updateRelay` address repair at a
concrete update that changes only the relayed node's IPv6 address
(`fd00::2` to `fd00::9`, IPv4 address `10.0.0.2` unchanged), on a relay
list holding both addresses.  The claim predicts `["10.0.0.2", "fd00::9"]`
(remove entries equal to the previous IPv6 address, append the new one);
the code keys the IPv6 branch on the previous IPv4 address, so it removes
the node's IPv4 entry and leaves the stale IPv6 entry in place. -/
theorem C3_v6_repair_keys_on_v4 :
    updateRelayAddrs "10.0.0.2" "fd00::2" "10.0.0.2" "fd00::9"
        ["10.0.0.2", "fd00::2"] = ["fd00::2", "fd00::9"] ∧
      updateRelayAddrs "10.0.0.2" "fd00::2" "10.0.0.2" "fd00::9"
        ["10.0.0.2", "fd00::2"] ≠ ["10.0.0.2", "fd00::9"] := by
  constructor
  · rfl
  · decide

/-- Counterexample for C4: on the list `["a", "a"]` (the old address
duplicated) the transition `a` to `b` is not idempotent: one application
yields `["a", "b"]` (the in-place splice skips the entry shifted into the
matched position), a second application yields `["b", "b"]`. -/
theorem C4_repair_not_idempotent :
    updateRelayAddrs "a" "c" "b" "c"
        (updateRelayAddrs "a" "c" "b" "c" ["a", "a"]) ≠
      updateRelayAddrs "a" "c" "b" "c" ["a", "a"] := by
  decide

/-- C4 as amended: the relay-address repair is idempotent for every relay
whose target-address list is duplicate-free (the data-model invariant),
for every address transition: applying the repair twice yields the same
record as applying it once. -/
theorem C4_repair_idempotent_on_nodup (oldnode newnode relay : Node)
    (hnd : relay.relayAddrs.Nodup) :
    updateRelay oldnode newnode (updateRelay oldnode newnode relay) =
      updateRelay oldnode newnode relay := by
  unfold updateRelay
  simp [updateRelayAddrs_idem_of_nodup _ _ _ _ _ hnd]

/-- Witness for C4's amended theorem at a concrete relay record. -/
theorem C4_repair_idempotent_on_nodup_witness :
    relayR.relayAddrs.Nodup ∧
      updateRelay nodeX nodeXNew (updateRelay nodeX nodeXNew relayR) =
        updateRelay nodeX nodeXNew relayR :=
  ⟨by decide, C4_repair_idempotent_on_nodup nodeX nodeXNew relayR (by decide)⟩

/-- C5: on an existing network, with the request decoding and the network
and settings lookups succeeding, the traffic keys present, persistence
succeeding and the draft not pre-marked pending (a registration draft
never is — only the handler sets the flag): a valid access key yields a
persisted node with the pending flag unset; an invalid key on a network
allowing manual signup yields a persisted node with the pending flag set;
an invalid key on a network not allowing manual signup yields an
Unauthorized response and persists no node. -/
theorem C5_createNode_key_branches (env : CreateNodeEnv)
    (networkName : String) (draft : Node) (sk mk : String)
    (hne : env.networkExistsErr = false)
    (hex : env.networkExists = true)
    (hdec : env.decodeErr = false)
    (hgn : env.getNetworkErr = false)
    (hgs : env.getSettingsErr = false)
    (hske : env.serverKeyErr = false)
    (hsk : env.serverTrafficKey = some sk)
    (hmk : draft.trafficKeyMine = some mk)
    (hcr : env.createErr = false)
    (hpend : draft.isPending ≠ "yes") :
    (env.keyIsValid = true →
      ∃ n, createNode env networkName draft = .created n ∧
        n.isPending ≠ "yes") ∧
    (env.keyIsValid = false → env.allowManualSignUp = "yes" →
      ∃ n, createNode env networkName draft = .created n ∧
        n.isPending = "yes") ∧
    (env.keyIsValid = false → env.allowManualSignUp ≠ "yes" →
      createNode env networkName draft = .unauthorized) := by
  refine ⟨?_, ?_, ?_⟩
  · intro hvalid
    have he : createNode env networkName draft = .created
        { draft with
            network := networkName
            trafficKeyMine := some mk
            trafficKeyServer := some sk } := by
      simp [createNode, hne, hex, hdec, hgn, hgs, hske, hsk, hmk, hcr,
        hvalid]
    exact ⟨_, he, hpend⟩
  · intro hvalid hsignup
    have he : createNode env networkName draft = .created
        { draft with
            network := networkName
            isPending := "yes"
            trafficKeyMine := some mk
            trafficKeyServer := some sk } := by
      simp [createNode, hne, hex, hdec, hgn, hgs, hske, hsk, hmk, hcr,
        hvalid, hsignup]
    exact ⟨_, he, rfl⟩
  · intro hvalid hsignup
    simp [createNode, hne, hex, hdec, hgn, hgs, hvalid, hsignup]

/-- Witness for C5 at a concrete valid-key registration. -/
theorem C5_createNode_key_branches_witness :
    ∃ n, createNode ⟨false, true, false, false, false, "no", true, false,
        some "sk", false⟩ "net1" nodeX = .created n ∧
      n.isPending ≠ "yes" :=
  (C5_createNode_key_branches _ "net1" nodeX "sk" "mkX" rfl rfl rfl rfl rfl
    rfl rfl rfl rfl (by decide)).1 rfl

/-- C6: deleting a node whose `IsServer` flag is `"yes"` fails with the
`"cannot delete server node"` bad-request error (the spec's `InvalidState`
class), and leaves the record untouched: `logic.DeleteNodeByID` is never
invoked and the `NODE_DELETE` action marker is never set. -/
theorem C6_delete_server_guard (node : Node) (deleteErr : Bool)
    (h : node.isServer = "yes") :
    deleteNode (some node) deleteErr =
      ⟨.badRequest "cannot delete server node", false, false⟩ := by
  simp [deleteNode, isServer, h]

/-- Witness for C6 at a concrete server node. -/
theorem C6_delete_server_guard_witness :
    deleteNode (some serverNode) false =
      ⟨.badRequest "cannot delete server node", false, false⟩ :=
  C6_delete_server_guard serverNode false rfl

/-- C7: when the server-wide remote-command-execution setting is disabled,
the node record handed to `logic.UpdateNode` for persistence keeps the
node's previous `PostUp`/`PostDown` script values and takes every other
field from the patch. -/
theorem C7_rce_gate_frame (rce ifaceDelta : Bool) (node newNode : Node)
    (h : rce = false) :
    (updateNodeHandler rce ifaceDelta node newNode).persisted =
      { newNode with postUp := node.postUp, postDown := node.postDown } := by
  subst h
  rfl

/-- Witness for C7 at a concrete patch carrying script fields. -/
theorem C7_rce_gate_frame_witness :
    (updateNodeHandler false true nodeX patchNode).persisted =
      { patchNode with postUp := nodeX.postUp, postDown := nodeX.postDown } :=
  C7_rce_gate_frame false true nodeX patchNode rfl

/-- C8: with the earlier steps of registration succeeding (existing
network, decode and lookups ok, access key valid or manual signup
allowed, the traffic-key retrieval call not erroring), an absent server
traffic key or an absent node traffic key makes `createNode` fail (the
spec's `InvalidState` class, formatted by the handler through the internal
error category) without persisting any node record. -/
theorem C8_missing_traffic_key (env : CreateNodeEnv) (networkName : String)
    (draft : Node)
    (hne : env.networkExistsErr = false)
    (hex : env.networkExists = true)
    (hdec : env.decodeErr = false)
    (hgn : env.getNetworkErr = false)
    (hgs : env.getSettingsErr = false)
    (hske : env.serverKeyErr = false)
    (hkey : env.keyIsValid = true ∨ env.allowManualSignUp = "yes")
    (hmiss : env.serverTrafficKey = none ∨ draft.trafficKeyMine = none) :
    createNode env networkName draft = .internalErr := by
  rcases hmiss with hm | hm
  · rcases hkey with hk | hs
    · simp [createNode, hne, hex, hdec, hgn, hgs, hske, hk, hm]
    · by_cases hk : env.keyIsValid = true <;>
        simp [createNode, hne, hex, hdec, hgn, hgs, hske, hk, hs, hm]
  · cases hsrv : env.serverTrafficKey with
    | none =>
      rcases hkey with hk | hs
      · simp [createNode, hne, hex, hdec, hgn, hgs, hske, hk, hsrv]
      · by_cases hk : env.keyIsValid = true <;>
          simp [createNode, hne, hex, hdec, hgn, hgs, hske, hk, hs, hsrv]
    | some k =>
      rcases hkey with hk | hs
      · simp [createNode, hne, hex, hdec, hgn, hgs, hske, hk, hsrv, hm]
      · by_cases hk : env.keyIsValid = true <;>
          simp [createNode, hne, hex, hdec, hgn, hgs, hske, hk, hs, hsrv,
            hm]

/-- Witness for C8 at a registration with the server traffic key absent. -/
theorem C8_missing_traffic_key_witness :
    createNode ⟨false, true, false, false, false, "no", true, false, none,
        false⟩ "net1" nodeX = .internalErr :=
  C8_missing_traffic_key _ "net1" nodeX rfl rfl rfl rfl rfl rfl
    (Or.inl rfl) (Or.inl rfl)

/-- C9: the force-propagation entry point `runForceServerUpdate` publishes
a peer update addressed to the given node and, when the network's current
leader lookup succeeds, pushes a configuration reload
(`logic.ServerUpdate` with a `false` delta flag) to that leader; its
output is this fixed action list for every node — it consults no
interface delta and performs no leadership check on the node itself. -/
theorem C9_force_update (leaderLookup : String → Option Node)
    (node leader : Node) (hld : leaderLookup node.network = some leader) :
    runForceServerUpdate leaderLookup node =
      [.publishPeerUpdate node.id, .serverUpdate leader.id false] ∧
    MqAction.publishPeerUpdate node.id ∈
      runForceServerUpdate leaderLookup node ∧
    MqAction.serverUpdate leader.id false ∈
      runForceServerUpdate leaderLookup node := by
  refine ⟨?_, ?_, ?_⟩ <;> simp [runForceServerUpdate, hld]

/-- Witness for C9 at a concrete leader lookup. -/
theorem C9_force_update_witness :
    runForceServerUpdate (fun _ => some serverNode) nodeX =
      [.publishPeerUpdate nodeX.id, .serverUpdate serverNode.id false] ∧
    MqAction.publishPeerUpdate nodeX.id ∈
      runForceServerUpdate (fun _ => some serverNode) nodeX ∧
    MqAction.serverUpdate serverNode.id false ∈
      runForceServerUpdate (fun _ => some serverNode) nodeX :=
  C9_force_update (fun _ => some serverNode) nodeX serverNode rfl

/-- Characterization of the `getUsersNodes` accumulation loop. -/
theorem getUsersNodes_fold (fetch : String → Option (List Node)) :
    ∀ (networks : List String) (init : List Node),
      List.foldl (fun nodes networkName =>
        match fetch networkName with
        | none => nodes
        | some tmpNodes => nodes ++ tmpNodes) init networks =
      init ++ (networks.filterMap fetch).flatten := by
  intro networks
  induction networks with
  | nil => intro init; simp
  | cons nw rest ih =>
    intro init
    cases hf : fetch nw with
    | none =>
      simp only [List.foldl, hf, ih, List.filterMap_cons_none hf]
    | some t =>
      simp only [List.foldl, hf, ih, List.filterMap_cons_some hf,
        List.flatten_cons, List.append_assoc]

/-- C10: for a non-admin user, `getUsersNodes` always returns a nil error,
silently skipping every network whose node lookup fails, and `getAllNodes`
therefore responds with the concatenation of the node lists of the
networks that succeeded — for every fetch behavior, a per-network storage
failure is never surfaced. -/
theorem C10_getUsersNodes_never_errors (u : User)
    (allNodesRes : Option (List Node))
    (fetch : String → Option (List Node)) (hadm : u.isAdmin = false) :
    (getUsersNodes fetch u).2 = none ∧
    getAllNodes (some u) false allNodesRes fetch =
      some ((u.networks.filterMap fetch).flatten) := by
  constructor
  · rfl
  · simp [getAllNodes, hadm, getUsersNodes, getUsersNodes_fold]

/-- Witness for C10 at a concrete user with one failing network lookup. -/
theorem C10_getUsersNodes_never_errors_witness :
    (getUsersNodes fetchOnlyN1 userAlice).2 = none ∧
    getAllNodes (some userAlice) false none fetchOnlyN1 =
      some ((userAlice.networks.filterMap fetchOnlyN1).flatten) :=
  C10_getUsersNodes_never_errors userAlice none fetchOnlyN1 rfl

end NM
